import Mathlib

/-!
Verification of the transfer control layer of the HFS file server:
admission scopes, upload sessions, bandwidth throttle groups, the
connection registry and the admin API gate.

JS strings are modelled as `List Char` where string contents matter
(addresses), and as `String` where only equality of keys matters
(destination paths).  Byte streams and files are modelled as `List Nat`.
-/

/-! ## Admission scope (section 4.2 of the spec) -/

/-- Modelled from the spec: the Admission Scope of sections 3 and 4.2.
The implementation of `reserve`/`release` is not among the provided
sources (only its test `testMaxDl`).  A scope holds a configured maximum
concurrent-slot count and the current occupancy. -/
structure Scope where
  maxSlots : Nat
  occupancy : Nat
  deriving DecidableEq

/-- Outcome of a reservation attempt: a granted slot (the updated scope)
or an immediate rejection surfaced to the client as HTTP 429. -/
inductive ReserveResult where
  | granted (s : Scope)
  | rejected (status : Nat)
  deriving DecidableEq

/-- Modelled from the spec: `reserve(scopeKey) -> Slot | Rejected`; a
reservation attempt when occupancy equals the configured maximum fails
immediately, with no queuing and no backoff. -/
def reserve (s : Scope) : ReserveResult :=
  if s.occupancy < s.maxSlots then .granted { s with occupancy := s.occupancy + 1 }
  else .rejected 429

/-- Modelled from the spec: `release(slot)` frees one slot. -/
def release (s : Scope) : Scope :=
  { s with occupancy := s.occupancy - 1 }

/-- The two operations a transfer performs against its admission scope. -/
inductive ScopeOp where
  | reserve
  | release
  deriving DecidableEq

/-- One step of the admission controller; a rejected reservation leaves
the scope untouched (no state mutation). -/
def scopeStep (s : Scope) : ScopeOp → Scope
  | .reserve =>
    match reserve s with
    | .granted s' => s'
    | .rejected _ => s
  | .release => release s

/-- Run a sequence of reserve/release operations against a scope. -/
def runScope (s : Scope) (ops : List ScopeOp) : Scope :=
  ops.foldl scopeStep s

lemma scopeStep_maxSlots (s : Scope) (op : ScopeOp) :
    (scopeStep s op).maxSlots = s.maxSlots := by
  cases op
  · by_cases h : s.occupancy < s.maxSlots <;> simp [scopeStep, reserve, h]
  · rfl

lemma scopeStep_occupancy_le (s : Scope) (op : ScopeOp)
    (h : s.occupancy ≤ s.maxSlots) :
    (scopeStep s op).occupancy ≤ s.maxSlots := by
  cases op
  · by_cases hlt : s.occupancy < s.maxSlots
    · simp only [scopeStep, reserve, if_pos hlt]
      exact hlt
    · simp only [scopeStep, reserve, if_neg hlt]
      exact h
  · simpa [scopeStep, release] using le_trans (Nat.sub_le _ _) h

lemma runScope_invariant (s : Scope) (ops : List ScopeOp)
    (h : s.occupancy ≤ s.maxSlots) :
    (runScope s ops).occupancy ≤ (runScope s ops).maxSlots := by
  induction ops generalizing s with
  | nil => exact h
  | cons op ops ih =>
    simp only [runScope, List.foldl_cons] at *
    apply ih
    have := scopeStep_occupancy_le s op h
    rwa [scopeStep_maxSlots]

lemma runScope_maxSlots (s : Scope) (ops : List ScopeOp) :
    (runScope s ops).maxSlots = s.maxSlots := by
  induction ops generalizing s with
  | nil => rfl
  | cons op ops ih =>
    simp only [runScope, List.foldl_cons] at *
    rw [ih, scopeStep_maxSlots]

/-- C1: for every admission scope with configured maximum `M`, after any
sequence of reserve/release operations starting from an empty scope the
occupancy never exceeds `M`; and a reservation attempt arriving while
occupancy equals the maximum is rejected immediately and synchronously
with HTTP 429, leaving the scope unchanged (no queuing, no state
mutation). -/
theorem admission_occupancy_bounded (M : Nat) (ops : List ScopeOp)
    (s : Scope) (hfull : s.occupancy = s.maxSlots) :
    (runScope ⟨M, 0⟩ ops).occupancy ≤ M ∧
    reserve s = .rejected 429 ∧
    scopeStep s .reserve = s := by
  refine ⟨?_, ?_, ?_⟩
  · have h := runScope_invariant ⟨M, 0⟩ ops (Nat.zero_le M)
    rwa [runScope_maxSlots] at h
  · simp [reserve, hfull]
  · simp [scopeStep, reserve, hfull]

/-- Witness for C1 at a concrete scope. -/
theorem admission_occupancy_bounded_witness :
    (runScope ⟨1, 0⟩ [.reserve, .reserve, .release]).occupancy ≤ 1 ∧
    reserve ⟨2, 2⟩ = .rejected 429 ∧
    scopeStep ⟨2, 2⟩ .reserve = ⟨2, 2⟩ :=
  admission_occupancy_bounded 1 [.reserve, .reserve, .release] ⟨2, 2⟩ rfl

/-! ## Upload session manager (section 4.3 of the spec) -/

/-- Bytes of a file or stream. -/
abbrev Bytes := List Nat

/-- Modelled from the spec: the states of an Upload Session (section 3).
`Idle` is represented by the absence of a session record. -/
inductive SessionState where
  | receiving
  | aborted
  | completed
  deriving DecidableEq

/-- Modelled from the spec: an Upload Session record: state, the start
offset of the current transfer, bytes written so far in the current
transfer, and the declared content length of the current transfer. -/
structure Session where
  state : SessionState
  offset : Nat
  written : Nat
  declared : Nat
  deriving DecidableEq

/-- Modelled from the spec: the Upload Session Manager, whose
implementation is not among the provided sources (only its tests
`upload.overlap` and `upload.interrupted`).  Sessions are keyed by the
canonicalized destination path (so at most one session record exists per
path); temporary storage and destination files are per-path byte lists. -/
structure UploadMgr where
  sess : String → Option Session
  temp : String → Option Bytes
  dest : String → Option Bytes

/-- Pointwise update of a per-path table. -/
def upd {α : Type} (f : String → Option α) (k : String) (v : Option α) :
    String → Option α :=
  fun q => if q = k then v else f q

/-- Errors surfaced to the client by the upload layer. -/
inductive UploadError where
  | conflict
  | badResume
  | sizeMismatch
  deriving DecidableEq

/-- Modelled from the spec: the part of `begin(offset)` that runs once the
conflict check has passed.  `offset = 0` prepares to overwrite but does
not touch the temporary storage (lazy truncation); `offset > 0` requires
existing temporary storage of size at least `offset` and otherwise fails
with a client error, creating no session. -/
def beginFrom (m : UploadMgr) (p : String) (off decl : Nat) :
    Except UploadError UploadMgr :=
  if off = 0 then
    .ok { m with sess := upd m.sess p (some ⟨.receiving, 0, 0, decl⟩) }
  else
    match m.temp p with
    | none => .error .badResume
    | some t =>
      if off ≤ t.length then
        .ok { m with sess := upd m.sess p (some ⟨.receiving, off, 0, decl⟩) }
      else .error .badResume

/-- Modelled from the spec: the transition `Idle --begin(offset)-->
Receiving`.  If a `Receiving` session already exists for this path, fail
with Conflict and make no changes; from `Aborted` or `Completed` a new
`begin` is equivalent to starting from `Idle` (the record is replaced,
the retained temporary bytes stay on disk). -/
def beginUpload (m : UploadMgr) (p : String) (off decl : Nat) :
    Except UploadError UploadMgr :=
  match m.sess p with
  | some s =>
    if s.state = .receiving then .error .conflict
    else beginFrom m p off decl
  | none => beginFrom m p off decl

/-- A failed `begin` leaves the manager exactly as it was. -/
def stepBegin (m : UploadMgr) (p : String) (off decl : Nat) : UploadMgr :=
  match beginUpload m p off decl with
  | .ok m' => m'
  | .error _ => m

/-- Write `c` into `t` starting at position `pos`, overwriting in place
and extending the storage when the write runs past its end. -/
def writeAt (t : Bytes) (pos : Nat) (c : Bytes) : Bytes :=
  t.take pos ++ c ++ t.drop (pos + c.length)

/-- Modelled from the spec: the transition `Receiving --append(bytes)-->
Receiving`: bytes are written sequentially from position
`offset + written`; `written` increases monotonically.  On a path that is
not `Receiving` this is a no-op. -/
def appendChunk (m : UploadMgr) (p : String) (c : Bytes) : UploadMgr :=
  match m.sess p with
  | some s =>
    if s.state = .receiving then
      { m with
        temp := upd m.temp p (some (writeAt ((m.temp p).getD []) (s.offset + s.written) c)),
        sess := upd m.sess p (some { s with written := s.written + c.length }) }
    else m
  | none => m

/-- Modelled from the spec: the transition `Receiving --abort()-->
Aborted`: stop writing, retain whatever bytes were already flushed (no
deletion), release the path lock. -/
def abortUpload (m : UploadMgr) (p : String) : UploadMgr :=
  match m.sess p with
  | some s =>
    if s.state = .receiving then
      { m with sess := upd m.sess p (some { s with state := .aborted }) }
    else m
  | none => m

/-- Modelled from the spec: the transition `Receiving --complete()-->
Completed`: when the bytes actually received match the declared content
length, promote the temporary storage to the destination path, remove the
temporary storage reference and mark the session completed; a size
mismatch is a hard failure. -/
def completeUpload (m : UploadMgr) (p : String) :
    Except UploadError UploadMgr :=
  match m.sess p with
  | some s =>
    if s.state = .receiving then
      if s.written = s.declared then
        .ok { m with
          dest := upd m.dest p (some ((m.temp p).getD [])),
          temp := upd m.temp p none,
          sess := upd m.sess p (some { s with state := .completed }) }
      else .error .sizeMismatch
    else .error .conflict
  | none => .error .conflict

/-- Size mismatch at completion aborts the session instead of completing
it, retaining the partial bytes per the abort rule. -/
def stepComplete (m : UploadMgr) (p : String) : UploadMgr :=
  match completeUpload m p with
  | .ok m' => m'
  | .error _ => abortUpload m p

/-- C2: sessions are keyed by destination path, so at most one session
record (hence at most one `Receiving` session) exists per path at any
instant; while a session for a path is `Receiving`, a second `begin`
targeting the same path is rejected with Conflict (HTTP 409) and alters
neither the first session's record nor any stored bytes. -/
theorem upload_overlap_conflict (m : UploadMgr) (p : String) (s : Session)
    (hs : m.sess p = some s) (hr : s.state = .receiving) (off decl : Nat) :
    (∀ s₁ s₂, m.sess p = some s₁ → m.sess p = some s₂ → s₁ = s₂) ∧
    beginUpload m p off decl = .error .conflict ∧
    stepBegin m p off decl = m := by
  have hb : beginUpload m p off decl = .error .conflict := by
    simp [beginUpload, hs, hr]
  refine ⟨?_, hb, ?_⟩
  · intro s₁ s₂ h₁ h₂
    rw [h₁] at h₂
    exact Option.some_injective _ h₂
  · simp [stepBegin, hb]

/-- A concrete manager holding one `Receiving` session, for witnesses. -/
def mgrRecv : UploadMgr where
  sess := fun q => if q = "p" then some ⟨.receiving, 0, 0, 5⟩ else none
  temp := fun q => if q = "p" then some [1, 2, 3] else none
  dest := fun _ => none

/-- Witness for C2 at a concrete manager. -/
theorem upload_overlap_conflict_witness :
    (∀ s₁ s₂, mgrRecv.sess "p" = some s₁ → mgrRecv.sess "p" = some s₂ → s₁ = s₂) ∧
    beginUpload mgrRecv "p" 0 5 = .error .conflict ∧
    stepBegin mgrRecv "p" 0 5 = mgrRecv :=
  upload_overlap_conflict mgrRecv "p" ⟨.receiving, 0, 0, 5⟩ (by simp [mgrRecv]) rfl 0 5

@[simp] lemma upd_same {α : Type} (f : String → Option α) (k : String)
    (v : Option α) : upd f k v k = v := by
  simp [upd]

lemma beginUpload_eq_beginFrom (m : UploadMgr) (p : String) (off decl : Nat)
    (hnr : ∀ s, m.sess p = some s → s.state ≠ .receiving) :
    beginUpload m p off decl = beginFrom m p off decl := by
  cases hm : m.sess p with
  | none => simp [beginUpload, hm]
  | some s => simp [beginUpload, hm, hnr s hm]

lemma beginFrom_ok (m : UploadMgr) (p : String) (off decl : Nat) (t : Bytes)
    (ht : m.temp p = some t) (hle : off ≤ t.length) :
    beginFrom m p off decl
      = .ok { m with sess := upd m.sess p (some ⟨.receiving, off, 0, decl⟩) } := by
  by_cases h0 : off = 0
  · subst h0
    simp [beginFrom]
  · simp [beginFrom, h0, ht, hle]

lemma writeAt_at_length (t : Bytes) (c : Bytes) :
    writeAt t t.length c = t ++ c := by
  simp [writeAt, List.drop_eq_nil_of_le (Nat.le_add_right _ _)]

lemma writeAt_take (t : Bytes) (off pos : Nat) (c : Bytes)
    (hop : off ≤ pos) (hot : off ≤ t.length) :
    (writeAt t pos c).take off = t.take off := by
  have hlen : off ≤ (t.take pos).length := by
    simp only [List.length_take]
    exact le_min hop hot
  calc (writeAt t pos c).take off
      = ((t.take pos).take off ++ (c ++ t.drop (pos + c.length)).take (off - (t.take pos).length)) := by
        simp [writeAt, List.take_append_eq_append_take]
    _ = (t.take pos).take off := by
        rw [Nat.sub_eq_zero_of_le hlen]
        simp
    _ = t.take off := by
        rw [List.take_take, Nat.min_eq_left hop]

/-- C3: for an aborted upload session with retained temporary storage
`t`: a fresh transfer (offset 0) to the same path that aborts before
writing any new bytes leaves the temporary storage exactly `t` (lazy
truncation), and a transfer explicitly resuming at offset
`t.length` that writes `c` before aborting leaves storage `t ++ c` of
size `t.length + c.length` with the first `t.length` bytes unchanged. -/
theorem upload_interrupted_sizes (m : UploadMgr) (p : String) (s : Session)
    (t : Bytes) (hs : m.sess p = some s) (ha : s.state = .aborted)
    (ht : m.temp p = some t) (decl decl' : Nat) (c : Bytes) :
    (beginUpload m p 0 decl = .ok (stepBegin m p 0 decl) ∧
      (abortUpload (stepBegin m p 0 decl) p).temp p = some t) ∧
    (beginUpload m p t.length decl' = .ok (stepBegin m p t.length decl') ∧
      (abortUpload (appendChunk (stepBegin m p t.length decl') p c) p).temp p
        = some (t ++ c) ∧
      (t ++ c).length = t.length + c.length ∧
      (t ++ c).take t.length = t) := by
  have hnr : ∀ s', m.sess p = some s' → s'.state ≠ .receiving := by
    intro s' hs'
    rw [hs] at hs'
    cases Option.some_injective _ hs'
    rw [ha]
    exact fun h => nomatch h
  have hb0 : beginUpload m p 0 decl
      = .ok { m with sess := upd m.sess p (some ⟨.receiving, 0, 0, decl⟩) } :=
    (beginUpload_eq_beginFrom m p 0 decl hnr).trans
      (beginFrom_ok m p 0 decl t ht (Nat.zero_le _))
  have hbL : beginUpload m p t.length decl'
      = .ok { m with sess := upd m.sess p (some ⟨.receiving, t.length, 0, decl'⟩) } :=
    (beginUpload_eq_beginFrom m p t.length decl' hnr).trans
      (beginFrom_ok m p t.length decl' t ht le_rfl)
  have hstep0 : stepBegin m p 0 decl
      = { m with sess := upd m.sess p (some ⟨.receiving, 0, 0, decl⟩) } := by
    simp [stepBegin, hb0]
  have hstepL : stepBegin m p t.length decl'
      = { m with sess := upd m.sess p (some ⟨.receiving, t.length, 0, decl'⟩) } := by
    simp [stepBegin, hbL]
  refine ⟨⟨?_, ?_⟩, ?_, ?_, ?_, ?_⟩
  · rw [hb0, hstep0]
  · rw [hstep0]
    simp [abortUpload, ht]
  · rw [hbL, hstepL]
  · rw [hstepL]
    simp [appendChunk, abortUpload, ht, writeAt_at_length]
  · simp
  · exact List.take_left t c

/-- A concrete manager holding one aborted session with retained bytes,
for witnesses. -/
def mgrAborted : UploadMgr where
  sess := fun q => if q = "p" then some ⟨.aborted, 0, 3, 9⟩ else none
  temp := fun q => if q = "p" then some [7, 8, 9] else none
  dest := fun _ => none

/-- Witness for C3 at a concrete manager. -/
theorem upload_interrupted_sizes_witness :
    (beginUpload mgrAborted "p" 0 9 = .ok (stepBegin mgrAborted "p" 0 9) ∧
      (abortUpload (stepBegin mgrAborted "p" 0 9) "p").temp "p" = some [7, 8, 9]) ∧
    (beginUpload mgrAborted "p" 3 9 = .ok (stepBegin mgrAborted "p" 3 9) ∧
      (abortUpload (appendChunk (stepBegin mgrAborted "p" 3 9) "p" [4, 5]) "p").temp "p"
        = some ([7, 8, 9] ++ [4, 5]) ∧
      ([7, 8, 9] ++ [4, 5] : Bytes).length = ([7, 8, 9] : Bytes).length + ([4, 5] : Bytes).length ∧
      ([7, 8, 9] ++ [4, 5] : Bytes).take ([7, 8, 9] : Bytes).length = [7, 8, 9]) :=
  upload_interrupted_sizes mgrAborted "p" ⟨.aborted, 0, 3, 9⟩ [7, 8, 9]
    (by simp [mgrAborted]) rfl (by simp [mgrAborted]) 9 9 [4, 5]

/-- C4: an upload to a destination path with no existing session that
runs to successful completion leaves no temporary storage for that path,
and the destination file holds exactly the transferred bytes, whose count
equals the declared content length. -/
theorem upload_complete_clean (m : UploadMgr) (p : String) (c : Bytes)
    (decl : Nat) (hs : m.sess p = none) (ht : m.temp p = none)
    (hd : c.length = decl) :
    ∃ m₂, completeUpload (appendChunk (stepBegin m p 0 decl) p c) p = .ok m₂ ∧
      m₂.temp p = none ∧ m₂.dest p = some c ∧ c.length = decl := by
  have hb : beginUpload m p 0 decl
      = .ok { m with sess := upd m.sess p (some ⟨.receiving, 0, 0, decl⟩) } := by
    simp [beginUpload, hs, beginFrom]
  have hstep : stepBegin m p 0 decl
      = { m with sess := upd m.sess p (some ⟨.receiving, 0, 0, decl⟩) } := by
    simp [stepBegin, hb]
  rw [hstep]
  simp [appendChunk, completeUpload, ht, hd, writeAt, upd]

/-- A concrete manager with no session and no temporary storage, for
witnesses. -/
def mgrIdle : UploadMgr where
  sess := fun _ => none
  temp := fun _ => none
  dest := fun _ => none

/-- Witness for C4 at a concrete manager. -/
theorem upload_complete_clean_witness :
    ∃ m₂, completeUpload (appendChunk (stepBegin mgrIdle "p" 0 3) "p" [4, 5, 6]) "p" = .ok m₂ ∧
      m₂.temp "p" = none ∧ m₂.dest "p" = some [4, 5, 6] ∧ ([4, 5, 6] : Bytes).length = 3 :=
  upload_complete_clean mgrIdle "p" [4, 5, 6] 3 rfl rfl rfl

/-- C5: a `begin` with explicit resume offset `off > 0` on a path whose
session is not `Receiving`: if no prior temporary storage exists, or its
size is smaller than `off`, the request fails with a client error and no
session is created (the manager is unchanged); otherwise a session
positioned at offset `off` is created, the temporary storage is untouched,
and every subsequent write lands at position `off`, preserving bytes
`[0, off)` unchanged. -/
theorem upload_resume_validation (m : UploadMgr) (p : String) (off decl : Nat)
    (hoff : 0 < off)
    (hnr : ∀ s, m.sess p = some s → s.state ≠ .receiving) :
    ((m.temp p = none ∨ ∃ t, m.temp p = some t ∧ t.length < off) →
      beginUpload m p off decl = .error .badResume ∧ stepBegin m p off decl = m) ∧
    (∀ t, m.temp p = some t → off ≤ t.length →
      beginUpload m p off decl = .ok (stepBegin m p off decl) ∧
      (stepBegin m p off decl).sess p = some ⟨.receiving, off, 0, decl⟩ ∧
      (stepBegin m p off decl).temp p = some t ∧
      ∀ c, (appendChunk (stepBegin m p off decl) p c).temp p = some (writeAt t off c) ∧
        (writeAt t off c).take off = t.take off) := by
  have h0 : off ≠ 0 := Nat.pos_iff_ne_zero.mp hoff
  have heq := beginUpload_eq_beginFrom m p off decl hnr
  constructor
  · rintro (htn | ⟨t, htv, hlt⟩)
    · have hb : beginUpload m p off decl = .error .badResume := by
        rw [heq]
        simp [beginFrom, h0, htn]
      exact ⟨hb, by simp [stepBegin, hb]⟩
    · have hb : beginUpload m p off decl = .error .badResume := by
        rw [heq]
        simp [beginFrom, h0, htv, Nat.not_le.mpr hlt]
      exact ⟨hb, by simp [stepBegin, hb]⟩
  · intro t htv hle
    have hb : beginUpload m p off decl
        = .ok { m with sess := upd m.sess p (some ⟨.receiving, off, 0, decl⟩) } :=
      heq.trans (beginFrom_ok m p off decl t htv hle)
    have hstep : stepBegin m p off decl
        = { m with sess := upd m.sess p (some ⟨.receiving, off, 0, decl⟩) } := by
      simp [stepBegin, hb]
    refine ⟨by rw [hb, hstep], by rw [hstep]; simp, by rw [hstep]; exact htv, ?_⟩
    intro c
    constructor
    · rw [hstep]
      simp [appendChunk, htv]
    · exact writeAt_take t off off c le_rfl hle

/-- Witness for C5 at a concrete manager: the aborted-session manager has
three retained bytes, so resuming at offset 5 is rejected while resuming
at offset 2 succeeds. -/
theorem upload_resume_validation_witness :
    (beginUpload mgrAborted "p" 5 9 = .error .badResume ∧
      stepBegin mgrAborted "p" 5 9 = mgrAborted) ∧
    (beginUpload mgrAborted "p" 2 9 = .ok (stepBegin mgrAborted "p" 2 9) ∧
      (stepBegin mgrAborted "p" 2 9).sess "p" = some ⟨.receiving, 2, 0, 9⟩ ∧
      (stepBegin mgrAborted "p" 2 9).temp "p" = some [7, 8, 9] ∧
      ∀ c, (appendChunk (stepBegin mgrAborted "p" 2 9) "p" c).temp "p"
          = some (writeAt [7, 8, 9] 2 c) ∧
        (writeAt [7, 8, 9] 2 c).take 2 = ([7, 8, 9] : Bytes).take 2) := by
  have hnr : ∀ s, mgrAborted.sess "p" = some s → s.state ≠ .receiving := by
    intro s hs
    simp [mgrAborted] at hs
    rw [← hs]
    exact fun h => nomatch h
  constructor
  · exact (upload_resume_validation mgrAborted "p" 5 9 (by decide) hnr).1
      (Or.inr ⟨[7, 8, 9], by simp [mgrAborted], by decide⟩)
  · exact (upload_resume_validation mgrAborted "p" 2 9 (by decide) hnr).2
      [7, 8, 9] (by simp [mgrAborted]) (by decide)

/-! ## Bandwidth throttle group (section 4.1 of the spec) -/

/-- Modelled from the spec: a Bandwidth Throttle Group of sections 3 and
4.1 (the implementation `ThrottledStream`/`ThrottleGroup` is not among
the provided sources, only its use in the tests).  `ceiling` is the byte
allotment of one time slice; `members` are the currently attached stream
members. -/
structure ThrottleGroup where
  ceiling : Nat
  members : List Nat
  deriving DecidableEq

/-- Modelled from the spec: `attach(group) -> member` registers a
consumer stream. -/
def attach (g : ThrottleGroup) (i : Nat) : ThrottleGroup :=
  { g with members := i :: g.members }

/-- Modelled from the spec: `release(member)` detaches immediately,
freeing its share to the remaining members. -/
def detach (g : ThrottleGroup) (i : Nat) : ThrottleGroup :=
  { g with members := g.members.erase i }

/-- Modelled from the spec: each slice the ceiling is redivided evenly
among the currently attached members. -/
def fairShare (g : ThrottleGroup) : Nat :=
  g.ceiling / g.members.length

/-- Modelled from the spec: the bytes released within one time slice: one
entry per attached member (each bounded by its allotment for the slice),
plus at most one chunk that was already in flight across the slice
boundary. -/
def sliceTotal (takes : List Nat) (inflight : Nat) : Nat :=
  takes.sum + inflight

lemma sum_le_of_forall_le (l : List Nat) (a : Nat) (h : ∀ x ∈ l, x ≤ a) :
    l.sum ≤ l.length * a := by
  induction l with
  | nil => simp
  | cons x xs ih =>
    simp only [List.sum_cons, List.length_cons, Nat.succ_mul]
    have hx := h x (List.mem_cons_self x xs)
    have hxs := ih fun y hy => h y (List.mem_cons_of_mem x hy)
    calc x + xs.sum ≤ a + xs.length * a := Nat.add_le_add hx hxs
      _ = xs.length * a + a := Nat.add_comm _ _

/-- C6: for a throttle group with ceiling `C > 0` and any number `k` of
attached members, the bytes released within one slice (each member at
most its fair share, plus at most one in-flight chunk) never exceed the
slice allotment `C` plus one chunk of slack, regardless of `k`; capacity
is redivided from the current membership whenever membership changes, and
with at least one member attached the fair share shrinks when a member
attaches. -/
theorem throttle_slice_bound (g : ThrottleGroup) (hC : 0 < g.ceiling)
    (takes : List Nat) (hlen : takes.length = g.members.length)
    (hle : ∀ x ∈ takes, x ≤ fairShare g)
    (inflight chunkMax : Nat) (hin : inflight ≤ chunkMax) (i : Nat) :
    sliceTotal takes inflight ≤ g.ceiling + chunkMax ∧
    fairShare (attach g i) = g.ceiling / (g.members.length + 1) ∧
    fairShare (detach g i) = g.ceiling / (g.members.erase i).length ∧
    (0 < g.members.length → fairShare (attach g i) ≤ fairShare g) := by
  refine ⟨?_, rfl, rfl, ?_⟩
  · have h1 : takes.sum ≤ takes.length * fairShare g :=
      sum_le_of_forall_le takes (fairShare g) hle
    have h3 : takes.sum ≤ g.ceiling := by
      rw [hlen] at h1
      calc takes.sum ≤ g.members.length * fairShare g := h1
        _ = g.ceiling / g.members.length * g.members.length := by
            rw [fairShare, Nat.mul_comm]
        _ ≤ g.ceiling := Nat.div_mul_le_self _ _
    show takes.sum + inflight ≤ g.ceiling + chunkMax
    exact Nat.add_le_add h3 hin
  · intro hk
    simp only [fairShare, attach, List.length_cons]
    exact Nat.div_le_div_left (Nat.le_succ _) hk

/-- Witness for C6 at a concrete group: ceiling 10 per slice, three
members taking their full fair share, one chunk of 4 in flight. -/
theorem throttle_slice_bound_witness :
    sliceTotal [3, 3, 3] 4 ≤ (⟨10, [1, 2, 3]⟩ : ThrottleGroup).ceiling + 4 ∧
    fairShare (attach ⟨10, [1, 2, 3]⟩ 2) = 10 / (3 + 1) ∧
    fairShare (detach ⟨10, [1, 2, 3]⟩ 2) = 10 / (([1, 2, 3] : List Nat).erase 2).length ∧
    (0 < ([1, 2, 3] : List Nat).length → fairShare (attach ⟨10, [1, 2, 3]⟩ 2) ≤ fairShare ⟨10, [1, 2, 3]⟩) :=
  throttle_slice_bound ⟨10, [1, 2, 3]⟩ (by decide) [3, 3, 3] (by decide)
    (by decide) 4 4 (by decide) 2

/-! ## Connection registry (`connections.ts`) -/

/-- The IPv6-mapped-IPv4 marker `::ffff:` stripped by `normalizeIp`. -/
def mappedV4 : List Char := "::ffff:".toList

/-- Embedding of `normalizeIp` from `connections.ts`:
`ip.replace(/^::ffff:/,'')` removes one occurrence of `::ffff:` anchored
at the start of the string and leaves any other string unchanged. -/
def normalizeIp (ip : List Char) : List Char :=
  if ip.take 7 = mappedV4 then ip.drop 7 else ip

/-- Embedding of the `ip` getter of `Connection`: prefer the Koa context
address (which supports proxies) when it is available (present and
non-empty), else fall back to the normalized raw transport address.  The
`_cachedIp` memoization of the source is semantically transparent and is
not modelled. -/
def connIp (ctxIp : Option (List Char)) (remoteAddress : Option (List Char)) :
    List Char :=
  match ctxIp with
  | some s => if s = [] then normalizeIp (remoteAddress.getD []) else s
  | none => normalizeIp (remoteAddress.getD [])

/-- A disconnection record of `disconnectionsLog`: timestamp, address,
best-effort country and optional reason, as built in `disconnect`. -/
structure DiscRecord where
  ts : Nat
  ip : List Char
  country : Option (List Char)
  msg : Option (List Char)
  deriving DecidableEq

/-- A live connection as registered by the `Connection` constructor:
creation timestamp and the raw transport address (plus an identifier
standing for object identity). -/
structure Conn where
  id : Nat
  started : Nat
  addr : List Char
  deriving DecidableEq

/-- The connection registry state: the live array `all`, the capped
`disconnectionsLog`, a source of fresh identities, and a monotone
clock supplying `new Date`. -/
structure Registry where
  all : List Conn
  log : List DiscRecord
  nextId : Nat
  now : Nat
  deriving DecidableEq

/-- Embedding of the `Connection` constructor: `all.push(this)` appends
the new connection to the live array; `started = new Date()` is the
current time. -/
def register (r : Registry) (addr : List Char) : Registry × Conn :=
  let c : Conn := { id := r.nextId, started := r.now, addr := addr }
  ({ r with all := r.all ++ [c], nextId := r.nextId + 1 }, c)

/-- Time passing between operations; the clock never goes backwards. -/
def tick (r : Registry) (dt : Nat) : Registry :=
  { r with now := r.now + dt }

/-- Embedding of the log cap in `disconnect`:
`disconnectionsLog.length = Math.min(1000, disconnectionsLog.length)`
keeps the first (most recent) 1000 entries. -/
def capLog (log : List DiscRecord) : List DiscRecord :=
  log.take 1000

/-- Embedding of `disconnect` together with the socket `close` handler
installed by the `Connection` constructor: the connection is spliced out
of `all`, and one record (normalized address, country, current time,
optional reason) is unshifted onto the capped `disconnectionsLog`. -/
def closeConn (r : Registry) (c : Conn) (country msg : Option (List Char)) :
    Registry :=
  { r with
    all := r.all.erase c,
    log := capLog ({ ts := r.now, ip := normalizeIp c.addr,
                     country := country, msg := msg } :: r.log) }

/-- C7: registering a socket and then closing it removes the connection
from the live set and appends exactly one disconnection record (the new
head of the log, everything older being kept up to the cap), and that
record's timestamp is no earlier than the connection's registration
timestamp. -/
theorem register_close_disconnection (r : Registry) (a : List Char)
    (dt : Nat) (country msg : Option (List Char))
    (hwf : ∀ c ∈ r.all, c.id < r.nextId) :
    (register r a).2 ∉ (closeConn (tick (register r a).1 dt) (register r a).2 country msg).all ∧
    (closeConn (tick (register r a).1 dt) (register r a).2 country msg).log
      = capLog ({ ts := r.now + dt, ip := normalizeIp a,
                  country := country, msg := msg } :: r.log) ∧
    (register r a).2.started ≤ r.now + dt := by
  have hnotin : ({ id := r.nextId, started := r.now, addr := a } : Conn) ∉ r.all := by
    intro hmem
    exact absurd rfl (Nat.ne_of_lt (hwf _ hmem))
  refine ⟨?_, rfl, Nat.le_add_right _ _⟩
  simp only [closeConn, tick, register]
  rw [List.erase_append_right _ hnotin]
  simpa using hnotin

/-- Witness for C7 at a concrete registry. -/
theorem register_close_disconnection_witness :
    (register ⟨[], [], 0, 100⟩ "::ffff:1.2.3.4".toList).2
        ∉ (closeConn (tick (register ⟨[], [], 0, 100⟩ "::ffff:1.2.3.4".toList).1 5)
            (register ⟨[], [], 0, 100⟩ "::ffff:1.2.3.4".toList).2 none none).all ∧
    (closeConn (tick (register ⟨[], [], 0, 100⟩ "::ffff:1.2.3.4".toList).1 5)
        (register ⟨[], [], 0, 100⟩ "::ffff:1.2.3.4".toList).2 none none).log
      = capLog ({ ts := 100 + 5, ip := normalizeIp "::ffff:1.2.3.4".toList,
                  country := none, msg := none } :: []) ∧
    (register ⟨[], [], 0, 100⟩ "::ffff:1.2.3.4".toList).2.started ≤ 100 + 5 :=
  register_close_disconnection ⟨[], [], 0, 100⟩ "::ffff:1.2.3.4".toList 5 none none
    (by intro c hc; exact absurd hc (List.not_mem_nil c))

/-- Embedding of the log update in `disconnect`: the new record is
unshifted (inserted first) and the log is truncated to its 1000 most
recent entries. -/
def logDisconnection (log : List DiscRecord) (rec : DiscRecord) :
    List DiscRecord :=
  capLog (rec :: log)

/-- Run a sequence of disconnect operations against the log. -/
def runDisconnections (log : List DiscRecord) (recs : List DiscRecord) :
    List DiscRecord :=
  recs.foldl logDisconnection log

lemma take_append_take {α : Type} (xs ys : List α) (n : Nat) :
    (xs ++ ys.take n).take n = (xs ++ ys).take n := by
  rw [List.take_append_eq_append_take, List.take_append_eq_append_take,
    List.take_take, Nat.min_eq_left (Nat.sub_le n xs.length)]

lemma runDisconnections_eq (log : List DiscRecord) (recs : List DiscRecord)
    (h : log.length ≤ 1000) :
    runDisconnections log recs = (recs.reverse ++ log).take 1000 := by
  induction recs generalizing log with
  | nil =>
    simp only [runDisconnections, List.foldl_nil, List.reverse_nil,
      List.nil_append]
    exact (List.take_of_length_le h).symm
  | cons rec recs ih =>
    have hstep : runDisconnections log (rec :: recs)
        = runDisconnections (capLog (rec :: log)) recs := rfl
    rw [hstep, ih (capLog (rec :: log)) (by simp [capLog])]
    simp only [capLog, List.reverse_cons, List.append_assoc]
    rw [take_append_take]
    rfl

/-- C8: after every sequence of disconnect operations the disconnection
log holds at most 1000 entries, namely the most recent records: each
append inserts the newest record first and entries beyond the 1000 most
recent are discarded; every entry is a `DiscRecord` carrying a timestamp,
an address, a best-effort country and an optional reason. -/
theorem disconnections_log_capped (log : List DiscRecord)
    (recs : List DiscRecord) (h : log.length ≤ 1000) :
    (runDisconnections log recs).length ≤ 1000 ∧
    runDisconnections log recs = (recs.reverse ++ log).take 1000 ∧
    ∀ rec ∈ runDisconnections log recs,
      rec = ⟨rec.ts, rec.ip, rec.country, rec.msg⟩ := by
  have he := runDisconnections_eq log recs h
  refine ⟨?_, he, ?_⟩
  · rw [he]
    exact le_trans (List.length_take_le _ _) le_rfl
  · intro rec _
    rfl

/-- Witness for C8 at a concrete log. -/
theorem disconnections_log_capped_witness :
    (runDisconnections [] [⟨1, [], none, none⟩, ⟨2, [], none, none⟩]).length ≤ 1000 ∧
    runDisconnections [] [⟨1, [], none, none⟩, ⟨2, [], none, none⟩]
      = (([⟨1, [], none, none⟩, ⟨2, [], none, none⟩] : List DiscRecord).reverse ++ []).take 1000 ∧
    ∀ rec ∈ runDisconnections [] [⟨1, [], none, none⟩, ⟨2, [], none, none⟩],
      rec = ⟨rec.ts, rec.ip, rec.country, rec.msg⟩ :=
  disconnections_log_capped [] [⟨1, [], none, none⟩, ⟨2, [], none, none⟩]
    (by decide)

/-- C9: the resolved client address is the proxy-aware context address
whenever one is available (present and non-empty), and otherwise the raw
transport address with a leading `::ffff:` stripped; `normalizeIp`
removes exactly one leading `::ffff:` and leaves every other address
unchanged. -/
theorem conn_ip_resolution (raw : Option (List Char)) (s t : List Char)
    (hne : s ≠ []) :
    connIp (some s) raw = s ∧
    connIp none raw = normalizeIp (raw.getD []) ∧
    normalizeIp (mappedV4 ++ t) = t ∧
    (t.take 7 ≠ mappedV4 → normalizeIp t = t) := by
  refine ⟨?_, ?_, ?_, ?_⟩
  · simp [connIp, hne]
  · rfl
  · have hlen : mappedV4.length = 7 := rfl
    have htake : (mappedV4 ++ t).take 7 = mappedV4 := by
      rw [← hlen, List.take_left]
    have hdrop : (mappedV4 ++ t).drop 7 = t := by
      rw [← hlen, List.drop_left]
    simp [normalizeIp, htake, hdrop]
  · intro hne
    simp [normalizeIp, hne]

/-- Witness for C9 at concrete addresses. -/
theorem conn_ip_resolution_witness :
    connIp (some "10.0.0.7".toList) (some "::ffff:1.2.3.4".toList) = "10.0.0.7".toList ∧
    connIp none (some "::ffff:1.2.3.4".toList)
      = normalizeIp ((some "::ffff:1.2.3.4".toList).getD []) ∧
    normalizeIp (mappedV4 ++ "2001:db8::1".toList) = "2001:db8::1".toList ∧
    ("2001:db8::1".toList.take 7 ≠ mappedV4 →
      normalizeIp "2001:db8::1".toList = "2001:db8::1".toList) :=
  conn_ip_resolution (some "::ffff:1.2.3.4".toList)
    "10.0.0.7".toList "2001:db8::1".toList (by decide)

/-! ## Admin API access gate (`adminApis.ts`) -/

/-- An account as seen by the gate: whether `accountCanLoginAdmin` holds
for it. -/
structure Account where
  adminCapable : Bool
  deriving DecidableEq

/-- The request context facts the gate consults: `isLocalHost(ctx)`,
whether `adminNet.compiled()(ctx.ip)` matches, whether a proxy is in use
(`ctx.ips.length > 0`), and the authenticated account, if any. -/
structure AdminCtx where
  isLocal : Bool
  inAdminNet : Bool
  viaProxy : Bool
  account : Option Account
  deriving DecidableEq

/-- The configuration the gate consults: the `localhost_admin` setting
and the account store. -/
structure AdminCfg where
  localhostAdmin : Bool
  accounts : List Account
  deriving DecidableEq

/-- Embedding of `allowAdmin`:
`isLocalHost(ctx) || adminNet.compiled()(ctx.ip)`. -/
def allowAdmin (ctx : AdminCtx) : Bool :=
  ctx.isLocal || ctx.inAdminNet

/-- Embedding of `ctxAdminAccess`: localhost admin counts only when no
proxy is in use, `localhost_admin` is enabled and the request comes from
localhost; otherwise an authenticated account able to login as admin is
required. -/
def ctxAdminAccess (cfg : AdminCfg) (ctx : AdminCtx) : Bool :=
  (!ctx.viaProxy && cfg.localhostAdmin && ctx.isLocal) ||
    (match ctx.account with
     | some a => a.adminCapable
     | none => false)

/-- Embedding of `anyAccountCanLoginAdmin`: some stored account can login
as admin. -/
def anyAccountCanLoginAdmin (cfg : AdminCfg) : Bool :=
  cfg.accounts.any (fun a => a.adminCapable)

/-- Outcome of one admin API call after the access-gate wrapper: HTTP 403,
HTTP 401 carrying the `possible` flag, or the original handler's result.
The 401 served as an event stream carries the same status and flag and is
not distinguished. -/
inductive ApiOutcome (α : Type) where
  | forbidden (status : Nat)
  | unauthorized (status : Nat) (possible : Bool)
  | handled (a : α)
  deriving DecidableEq

/-- Embedding of the access-gate wrapper installed over every entry of
`adminApis`: deny with 403 unless `allowAdmin`, answer 401 with the
`possible` flag unless `ctxAdminAccess`, and only otherwise run the
wrapped handler. -/
def adminGate {α : Type} (cfg : AdminCfg) (ctx : AdminCtx)
    (handler : Unit → α) : ApiOutcome α :=
  if !allowAdmin ctx then .forbidden 403
  else if ctxAdminAccess cfg ctx then .handled (handler ())
  else .unauthorized 401 (anyAccountCanLoginAdmin cfg)

/-- C10: for every admin API operation: a context that is neither
localhost nor within the configured admin network gets HTTP 403 whatever
the wrapped handler is (so the handler is not invoked); an allowed
context without admin access gets HTTP 401 with the
`possible` flag `anyAccountCanLoginAdmin`, again independently of the handler;
and only an allowed context with admin access runs the original
handler. -/
theorem admin_gate_access {α : Type} (cfg : AdminCfg) (ctx : AdminCtx) :
    (ctx.isLocal = false ∧ ctx.inAdminNet = false →
      ∀ handler : Unit → α, adminGate cfg ctx handler = .forbidden 403) ∧
    (allowAdmin ctx = true → ctxAdminAccess cfg ctx = false →
      ∀ handler : Unit → α,
        adminGate cfg ctx handler
          = .unauthorized 401 (anyAccountCanLoginAdmin cfg)) ∧
    (allowAdmin ctx = true → ctxAdminAccess cfg ctx = true →
      ∀ handler : Unit → α, adminGate cfg ctx handler = .handled (handler ())) := by
  refine ⟨?_, ?_, ?_⟩
  · rintro ⟨h1, h2⟩ handler
    simp [adminGate, allowAdmin, h1, h2]
  · intro ha hc handler
    simp [adminGate, ha, hc]
  · intro ha hc handler
    simp [adminGate, ha, hc]

/-- Witness for C10 at concrete contexts: a remote context outside the
admin network, a localhost context with `localhost_admin` disabled and no
account, and a localhost context with `localhost_admin` enabled. -/
theorem admin_gate_access_witness :
    adminGate ⟨false, []⟩ ⟨false, false, false, none⟩ (fun _ => (7 : Nat)) = .forbidden 403 ∧
    adminGate ⟨false, []⟩ ⟨true, false, false, none⟩ (fun _ => (7 : Nat))
      = .unauthorized 401 (anyAccountCanLoginAdmin ⟨false, []⟩) ∧
    adminGate ⟨true, []⟩ ⟨true, false, false, none⟩ (fun _ => (7 : Nat)) = .handled 7 := by
  refine ⟨?_, ?_, ?_⟩
  · exact (admin_gate_access ⟨false, []⟩ ⟨false, false, false, none⟩).1
      ⟨rfl, rfl⟩ (fun _ => (7 : Nat))
  · exact (admin_gate_access ⟨false, []⟩ ⟨true, false, false, none⟩).2.1
      rfl rfl (fun _ => (7 : Nat))
  · exact (admin_gate_access ⟨true, []⟩ ⟨true, false, false, none⟩).2.2
      rfl rfl (fun _ => (7 : Nat))
